import Mathlib

/-!
Verification development for the pyseer association-testing engine.

The definitions below are a shallow embedding of the streaming variant
ingestion, filtering, counting and dispatch code in `pyseer/input.py` and
`pyseer/__main__.py` (plus the record types of `pyseer/classes.py`).
Python floats are modelled as rationals, numpy arrays as lists, pandas
series as an index list plus a value list, and the mutable input streams
as explicit state threaded through each reading step.

External model-fitting services (`model.pre_filtering`,
`model.fixed_effects_regression`, `lmm.fit_lmm`) live in modules that are
not part of the sources verified here; they are taken as function
parameters, so that every theorem quantifies over their behaviour.
-/

namespace Pyseer

abbrev Sample := String

/-- A variant-call record as surfaced by the indexed call-file reader:
contig, position, alleles, alternate alleles, filter-status keys and
per-sample haplotype calls (`none` models a missing call). -/
structure VcfRecord where
  contig : String
  pos : Nat
  alleles : List String
  alts : List String
  filterKeys : List String
  samples : List (Sample × List (Option Int))
deriving Repr

/-- Dominant encoding of one sample's genotype: any haplotype call other
than the reference value 0 marks the sample as present.  (In the source
the guard also compares the printed haplotype against the missing marker
with an identity test that never fires for integer or missing calls, so
a missing haplotype also counts as present; the embedding keeps that
behaviour.) -/
def gt_present (call : List (Option Int)) : Bool :=
  call.any (fun h => h ≠ some 0)

/-- Embedding of `read_vcf_var` (input.py): builds the variant name from
contig, position and alleles; rejects multi-allelic records and records
whose filter status is neither PASS nor unset; otherwise appends every
present sample to the presence dictionary `d`. -/
def read_vcf_var (variant : VcfRecord) (d : List Sample) : Option String × List Sample :=
  let var_name := String.intercalate "_"
    ([variant.contig, toString variant.pos] ++ variant.alleles)
  if variant.alts.length > 1 then
    (none, d)
  else if !(variant.filterKeys.contains "PASS") && !(variant.filterKeys.contains ".") then
    (none, d)
  else
    (some var_name,
     variant.samples.foldl
       (fun acc sc => if gt_present sc.2 then acc ++ [sc.1] else acc) d)

/-- Splitting of a character list at every occurrence of a separator
character, Python `str.split(sep)` style: `n` separators yield `n + 1`
(possibly empty) segments. -/
def splitOnChar (c : Char) : List Char → List (List Char)
  | [] => [[]]
  | x :: xs =>
      match splitOnChar c xs with
      | [] => if x = c then [[], []] else [[x]]
      | h :: t => if x = c then [] :: h :: t else (x :: h) :: t

/-- Numeric value of a digit run. -/
def charsToNat (l : List Char) : Nat :=
  l.foldl (fun n c => n * 10 + (c.toNat - 48)) 0

/-- True when the character list is a nonempty run of decimal digits. -/
def isDigits (l : List Char) : Bool :=
  l.length > 0 && l.all Char.isDigit

/-- Embedding of the region regular expression `^(.+):(\d+)-(\d+)$` used
for burden regions: the separating colon is necessarily the last colon of
the string, and the tail must be two nonempty digit runs joined by a
single dash. -/
def parse_region (s : String) : Option (String × Nat × Nat) :=
  let parts := splitOnChar ':' s.data
  if parts.length ≥ 2 then
    let suffix := parts.getLastD []
    let contig := List.intercalate [':'] parts.dropLast
    match splitOnChar '-' suffix with
    | [a, b] =>
        if contig.length > 0 && isDigits a && isDigits b then
          some (⟨contig⟩, charsToNat a, charsToNat b)
        else none
    | _ => none
  else none

/-- One pre-tokenized k-mer line: the variant name before the bar and the
`sample:count` tokens after it. -/
structure KmerLine where
  name : String
  strains : List String
deriving Repr

/-- One pre-tokenized Rtab line: the variant name and the per-sample
presence tokens, positionally aligned with the header sample order. -/
structure RtabLine where
  name : String
  tokens : List String
deriving Repr

/-- The variant input stream, one constructor per backing format.  The
burden case carries the indexed call file as a fetch function from a
genomic interval to the overlapping records. -/
inductive VarFile where
  | kmers (lines : List KmerLine)
  | vcf (recs : List VcfRecord)
  | vcfIndexed (fetch : String → Int → Int → List VcfRecord)
  | rtab (lines : List RtabLine)

/-- Result tuple of `read_variant`: end-of-stream flag, optional
indicator vector, optional variant name, present/absent sample lists and
optional allele frequency.  All data fields are `none` exactly when the
record was unreadable or the stream ended, mirroring the all-`None`
return in the source. -/
structure ReadOut where
  eof : Bool
  k : Option (List Nat)
  var_name : Option String
  kstrains : List Sample
  nkstrains : List Sample
  af : Option ℚ
deriving Repr

/-- Code-point lexicographic comparison of character lists, the order
Python `sorted` uses on strings. -/
def charsLe : List Char → List Char → Bool
  | [], _ => true
  | _ :: _, [] => false
  | a :: as, b :: bs =>
      if a.toNat < b.toNat then true
      else if b.toNat < a.toNat then false
      else charsLe as bs

/-- String comparison on the underlying character lists. -/
def strLe (a b : Sample) : Bool :=
  charsLe a.data b.data

/-- Insertion of a sample into a sorted list. -/
def insertSorted (a : Sample) : List Sample → List Sample
  | [] => [a]
  | b :: l => if strLe a b then a :: b :: l else b :: insertSorted a l

/-- Sorting of sample names, as `sorted` in the source (insertion sort
by code-point order). -/
def sortStr (l : List Sample) : List Sample :=
  l.foldr insertSorted []

/-- Common post-processing of a parsed presence dictionary (input.py,
tail of `read_variant`): intersect with the sample universe, complement
for the absent list, default missing samples to absent, compute the
allele frequency and build the indicator vector in phenotype-index
order. -/
def postProcess (d : List Sample) (var_name : String)
    (pIndex : List Sample) (all_strains : List Sample) : ReadOut :=
  let kstrains := sortStr (all_strains.filter (fun s => d.contains s))
  let nkstrains := sortStr (all_strains.filter (fun s => !(d.contains s)))
  let af : ℚ := mkRat kstrains.length all_strains.length
  let k := pIndex.filterMap (fun x =>
    if d.contains x then some 1
    else if nkstrains.contains x then some 0
    else none)
  ⟨false, some k, some var_name, kstrains, nkstrains, some af⟩

/-- Format-specific reading step of `read_variant`: `none` signals
end-of-stream, `some none` an unreadable record to be skipped, and
`some (some (name, d))` a parsed name and presence dictionary.  Returns
the advanced stream state and region queue. -/
def read_step (infile : VarFile) (regions : List (String × String))
    (sample_order : List Sample) :
    Option (Option (String × List Sample)) × VarFile × List (String × String) :=
  match infile with
  | .kmers [] => (none, .kmers [], regions)
  | .kmers (l :: rest) =>
      let d := l.strains.map (fun t => (⟨(splitOnChar ':' t.data).headD t.data⟩ : String))
      (some (some (l.name, d)), .kmers rest, regions)
  | .vcf [] => (none, .vcf [], regions)
  | .vcf (r :: rest) =>
      match read_vcf_var r [] with
      | (none, _) => (some none, .vcf rest, regions)
      | (some nm, d) => (some (some (nm, d)), .vcf rest, regions)
  | .vcfIndexed fetch =>
      match regions with
      | [] => (none, .vcfIndexed fetch, [])
      | (vname, rspec) :: rest =>
          match parse_region rspec with
          | none => (some none, .vcfIndexed fetch, rest)
          | some (contig, rstart, rend) =>
              let d := (fetch contig ((rstart : Int) - 1) (rend : Int)).foldl
                (fun acc v => (read_vcf_var v acc).2) []
              (some (some (vname, d)), .vcfIndexed fetch, rest)
  | .rtab [] => (none, .rtab [], regions)
  | .rtab (l :: rest) =>
      let d := (l.tokens.zip sample_order).filterMap
        (fun ts => if ts.1 ≠ "0" then some ts.2 else none)
      (some (some (l.name, d)), .rtab rest, regions)

/-- Embedding of `read_variant` (input.py): one format-specific read
followed by the common post-processing.  The burden mode is selected by
the `vcfIndexed` stream constructor, which consumes the region queue
destructively exactly as the source pops its deque. -/
def read_variant (infile : VarFile) (pIndex : List Sample)
    (regions : List (String × String)) (all_strains : List Sample)
    (sample_order : List Sample) :
    ReadOut × VarFile × List (String × String) :=
  match read_step infile regions sample_order with
  | (none, f2, r2) => (⟨true, none, none, [], [], none⟩, f2, r2)
  | (some none, f2, r2) => (⟨false, none, none, [], [], none⟩, f2, r2)
  | (some (some (nm, d)), f2, r2) => (postProcess d nm pIndex all_strains, f2, r2)

/-! ### Pattern hashing (`hash_pattern`, input.py) -/

/-- Byte view of the indicator vector: numpy stores the indicator as
64-bit integers, and `k.view(np.uint8)` reads them back as eight
little-endian bytes per entry. -/
def indicator_bytes (k : List Nat) : List Nat :=
  k.flatMap (fun v => (List.range 8).map (fun i => v / 256 ^ i % 256))

/-- Modelled from the spec: `hashlib.md5` is an external library routine;
the spec describes the pattern hash as a deterministic fixed-length
digest of the raw indicator bytes, so the digest is modelled as a
concrete 16-byte fold over the byte stream. -/
def md5_digest (bytes : List Nat) : List Nat :=
  let h := bytes.foldl
    (fun h b => (h * 1099511628211 + b % 256 + 1) % 2 ^ 128)
    88172645463325252
  (List.range 16).map (fun i => h / 256 ^ i % 256)

/-- Code of one base64 alphabet position. -/
def base64_char (n : Nat) : Nat :=
  if n < 26 then 65 + n
  else if n < 52 then 97 + (n - 26)
  else if n < 62 then 48 + (n - 52)
  else if n = 62 then 43
  else 47

/-- Base64 encoding of a byte list, three bytes to four characters, with
trailing padding. -/
def b2a_base64_chunks : List Nat → List Nat
  | b0 :: b1 :: b2 :: rest =>
      let w := (b0 % 256) * 65536 + (b1 % 256) * 256 + b2 % 256
      [base64_char (w / 262144), base64_char (w / 4096 % 64),
       base64_char (w / 64 % 64), base64_char (w % 64)]
        ++ b2a_base64_chunks rest
  | [b0, b1] =>
      let w := (b0 % 256) * 65536 + (b1 % 256) * 256
      [base64_char (w / 262144), base64_char (w / 4096 % 64),
       base64_char (w / 64 % 64), 61]
  | [b0] =>
      let w := (b0 % 256) * 65536
      [base64_char (w / 262144), base64_char (w / 4096 % 64), 61, 61]
  | [] => []

/-- Embedding of `binascii.b2a_base64`: base64 characters followed by a
newline byte. -/
def b2a_base64 (bytes : List Nat) : List Nat :=
  b2a_base64_chunks bytes ++ [10]

/-- Embedding of `hash_pattern` (input.py): base64 of the digest of the
indicator's byte view. -/
def hash_pattern (k : List Nat) : List Nat :=
  b2a_base64 (md5_digest (indicator_bytes k))

/-! ### Result records (`classes.py`) -/

/-- Embedding of the `Seer` named tuple of classes.py.  Floating-point
statistics become rationals; the per-lineage index is an optional
natural. -/
structure Seer where
  kmer : String
  pattern : List Nat
  af : ℚ
  prep : ℚ
  pvalue : ℚ
  kbeta : ℚ
  bse : ℚ
  intercept : ℚ
  betas : List ℚ
  max_lineage : Option Nat
  kstrains : List Sample
  nkstrains : List Sample
  notes : String
  prefilter : Bool
  filter : Bool
deriving Repr

/-- The LMM record as constructed at the call site in `load_var_block`
(input.py), which supplies eleven positional values.  Note that
classes.py declares three further fields (`notes`, `prefilter`,
`filter`) that this call site does not supply, so the constructor call
and the record declaration disagree in the sources; the embedding keeps
the eleven values actually passed. -/
structure LMMRec where
  kmer : String
  pattern : List Nat
  af : ℚ
  prep : ℚ
  pvalue : ℚ
  kbeta : ℚ
  bse : ℚ
  frac_h2 : ℚ
  max_lineage : Option Nat
  kstrains : List Sample
  nkstrains : List Sample
deriving Repr

/-! ### LMM block loading (`load_var_block`, input.py) -/

/-- Parameters threaded into `load_var_block`: the phenotype index, the
sample universe and header order, the AF bounds, the pre-test threshold
and phenotype kind, and the cheap pre-test itself.  `pre` models
`model.pre_filtering` applied to the fixed phenotype vector; the module
implementing it is external to the verified sources, so it stays a
parameter returning the pre-test p-value and the bad-chi-square flag. -/
structure BlockParams where
  pIndex : List Sample
  all_strains : List Sample
  sample_order : List Sample
  min_af : ℚ
  max_af : ℚ
  filter_pvalue : ℚ
  continuous : Bool
  pre : List Nat → ℚ × Bool

/-- An all-zero matrix column, as left by the pre-allocation. -/
def zeroCol (n : Nat) : List Nat :=
  List.replicate n 0

/-- Column compaction test: keep a column when not all entries are
zero (`~np.all(variant_mat == 0, axis=0)`). -/
def colNZ (c : List Nat) : Bool :=
  !(c.all (fun x => x == 0))

/-- Accumulator of the `load_var_block` loop: the count of variants that
failed the AF bounds or were unreadable, the admitted records, and the
matrix columns written so far (one column per loop iteration, all-zero
when the iteration admitted nothing). -/
structure BlockAcc where
  prefilter : Nat
  variants : List LMMRec
  cols : List (List Nat)
deriving Repr

/-- One iteration body of the `load_var_block` loop (input.py): a
readable variant inside the closed AF interval is pre-tested (the
pre-test p-value is zero for continuous phenotypes) and admitted when
the pre-test p-value is strictly below the threshold; otherwise its
pre-allocated column stays zero, and only AF/readability failures
increment the prefilter count. -/
def lvb_step (P : BlockParams) (acc : BlockAcc) (res : ReadOut) : BlockAcc :=
  match res.k, res.af with
  | some k, some af =>
      if P.min_af ≤ af ∧ af ≤ P.max_af then
        let prep := if ¬ P.continuous then (P.pre k).1 else 0
        if prep < P.filter_pvalue then
          { acc with
            variants := acc.variants ++
              [⟨res.var_name.getD "", hash_pattern k, af, prep,
                0, 0, 0, 0, none, res.kstrains, res.nkstrains⟩],
            cols := acc.cols ++ [k] }
        else
          { acc with cols := acc.cols ++ [zeroCol P.pIndex.length] }
      else
        { acc with prefilter := acc.prefilter + 1,
                   cols := acc.cols ++ [zeroCol P.pIndex.length] }
  | _, _ =>
      { acc with prefilter := acc.prefilter + 1,
                 cols := acc.cols ++ [zeroCol P.pIndex.length] }

/-- The reading loop of `load_var_block`: up to `block_size` reads,
breaking at end-of-stream.  Returns the accumulator, the final
end-of-stream flag and the advanced stream state. -/
def lvb_loop (P : BlockParams) :
    Nat → VarFile → List (String × String) → BlockAcc →
    BlockAcc × Bool × VarFile × List (String × String)
  | 0, f, regs, acc => (acc, false, f, regs)
  | n + 1, f, regs, acc =>
      match read_variant f P.pIndex regs P.all_strains P.sample_order with
      | (res, f2, r2) =>
          if res.eof then (acc, true, f2, r2)
          else lvb_loop P n f2 r2 (lvb_step P acc res)

/-- Counter dictionary returned by `load_var_block`. -/
structure BlockCounts where
  prefilter : Nat
  tested : Nat
deriving Repr

/-- Full return of `load_var_block`: admitted records, compacted
indicator matrix, counters, end-of-stream flag and the advanced stream
state. -/
structure BlockOut where
  variants : List LMMRec
  variant_mat : List (List Nat)
  counts : BlockCounts
  eof : Bool
  file : VarFile
  regions : List (String × String)

/-- Embedding of `load_var_block` (input.py): run the loop, pad the
written columns back to the pre-allocated width, compact away all-zero
columns, and report the prefilter count and the number of admitted
records. -/
def load_var_block (P : BlockParams) (block_size : Nat)
    (f : VarFile) (regs : List (String × String)) : BlockOut :=
  match lvb_loop P block_size f regs ⟨0, [], []⟩ with
  | (acc, e, f2, r2) =>
      let padded := acc.cols ++
        List.replicate (block_size - acc.cols.length) (zeroCol P.pIndex.length)
      ⟨acc.variants, padded.filter colNZ,
       ⟨acc.prefilter, acc.variants.length⟩, e, f2, r2⟩

/-- Reference description of one `load_var_block` iteration: the list
(empty or a singleton) of admitted record/indicator-column pairs the
iteration produces.  Used to state the alignment between the record list
and the compacted matrix. -/
def pairStep (P : BlockParams) (res : ReadOut) : List (LMMRec × List Nat) :=
  match res.k, res.af with
  | some k, some af =>
      if P.min_af ≤ af ∧ af ≤ P.max_af then
        let prep := if ¬ P.continuous then (P.pre k).1 else 0
        if prep < P.filter_pvalue then
          [(⟨res.var_name.getD "", hash_pattern k, af, prep,
             0, 0, 0, 0, none, res.kstrains, res.nkstrains⟩, k)]
        else []
      else []
  | _, _ => []

/-- Reference description of the prefilter increment of one
`load_var_block` iteration. -/
def prefStep (P : BlockParams) (res : ReadOut) : Nat :=
  match res.k, res.af with
  | some _, some af => if P.min_af ≤ af ∧ af ≤ P.max_af then 0 else 1
  | _, _ => 1

/-- Reference list of admitted record/column pairs of a whole block, in
reading order. -/
def blockPairs (P : BlockParams) :
    Nat → VarFile → List (String × String) → List (LMMRec × List Nat)
  | 0, _, _ => []
  | n + 1, f, regs =>
      match read_variant f P.pIndex regs P.all_strains P.sample_order with
      | (res, f2, r2) =>
          if res.eof then []
          else pairStep P res ++ blockPairs P n f2 r2

/-- Reference prefilter count of a whole block. -/
def blockPref (P : BlockParams) :
    Nat → VarFile → List (String × String) → Nat
  | 0, _, _ => 0
  | n + 1, f, regs =>
      match read_variant f P.pIndex regs P.all_strains P.sample_order with
      | (res, f2, r2) =>
          if res.eof then 0
          else prefStep P res + blockPref P n f2 r2

/-! ### Fixed-effects path (`iter_variants`, input.py; main loop, __main__.py) -/

/-- Parameters captured by the `iter_variants` generator: the phenotype,
the structure projection, the covariates, the AF bounds and test
thresholds, the lineage switch and the phenotype kind.  The null-model
objects passed through to the worker are opaque fitting state and are
not represented. -/
structure FixedParams where
  pIndex : List Sample
  pvals : List ℚ
  m : List (List ℚ)
  cov : List (List ℚ)
  all_strains : List Sample
  sample_order : List Sample
  lineage_effects : Bool
  min_af : ℚ
  max_af : ℚ
  filter_pvalue : ℚ
  lrt_pvalue : ℚ
  continuous : Bool

/-- The argument tuple yielded by `iter_variants` for one admitted
variant. -/
structure FixedArgs where
  var_name : String
  v : List ℚ
  k : List Nat
  m : List (List ℚ)
  c : List (List ℚ)
  af : ℚ
  pattern : List Nat
  lineage_effects : Bool
  filter_pvalue : ℚ
  lrt_pvalue : ℚ
  kstrains : List Sample
  nkstrains : List Sample
  continuous : Bool
deriving Repr

/-- One yield of `iter_variants`: either the all-`None` tuple (for an
unreadable record or an allele frequency outside the closed bounds) or
the full argument tuple for the regression worker. -/
inductive IterYield where
  | skip
  | item (args : FixedArgs)
deriving Repr

/-- True on the `item` constructor. -/
def IterYield.isItem : IterYield → Bool
  | .skip => false
  | .item _ => true

/-- The yield decision of `iter_variants` (input.py): the all-`None`
tuple when the indicator is `none` or the AF falls outside
`[min_af, max_af]`, the packed argument tuple (pattern hash included)
otherwise. -/
def iter_variants_yield (P : FixedParams) (res : ReadOut) : IterYield :=
  match res.k, res.af with
  | some k, some af =>
      if P.min_af ≤ af ∧ af ≤ P.max_af then
        .item ⟨res.var_name.getD "", P.pvals, k, P.m, P.cov, af,
               hash_pattern k, P.lineage_effects, P.filter_pvalue,
               P.lrt_pvalue, res.kstrains, res.nkstrains, P.continuous⟩
      else .skip
  | _, _ => .skip

/-- The full yield sequence of `iter_variants`, reading until
end-of-stream; `fuel` bounds the number of reads and any value at least
the source length is exact. -/
def iter_variants_list (P : FixedParams) :
    Nat → VarFile → List (String × String) → List IterYield
  | 0, _, _ => []
  | n + 1, f, regs =>
      match read_variant f P.pIndex regs P.all_strains P.sample_order with
      | (res, f2, r2) =>
          if res.eof then []
          else iter_variants_yield P res :: iter_variants_list P n f2 r2

/-- Aggregation state of the fixed-effects main loop (__main__.py):
diagnostic counters, the pattern sink and the printed records.
`filteredR` is not a counter of the source; it counts the tested
results whose `filter` flag was set, so that the partition of `tested`
can be stated. -/
structure AggState where
  prefilter : Nat
  tested : Nat
  printed : Nat
  filteredR : Nat
  patterns : List (List Nat)
  output : List Seer
deriving Repr

/-- Starting aggregation state. -/
def aggInit : AggState := ⟨0, 0, 0, 0, [], []⟩

/-- One iteration of the result-consuming loop of the fixed-effects path
(__main__.py, identical in the sequential and pooled branches): a
prefiltered result only bumps `prefilter`; otherwise the result is
tested, its pattern optionally emitted, and it is printed unless its
`filter` flag is set. -/
def agg_step (output_patterns : Bool) (st : AggState) (x : Seer) : AggState :=
  if x.prefilter then
    { st with prefilter := st.prefilter + 1 }
  else
    let st1 := { st with
      tested := st.tested + 1,
      patterns := if output_patterns then st.patterns ++ [x.pattern] else st.patterns }
    if x.filter then { st1 with filteredR := st1.filteredR + 1 }
    else { st1 with printed := st1.printed + 1, output := st1.output ++ [x] }

/-- The number of variant argument tuples sliced off per pool dispatch
(`options.cpu * kmer_per_core`, __main__.py). -/
def kmer_per_core : Nat := 1000

/-- Bounded chunking of a list, as produced by repeated `islice` calls:
each chunk takes up to `n` items, and the sequence stops at the first
empty slice. -/
def chunksOfAux (n : Nat) : Nat → List α → List (List α)
  | 0, _ => []
  | _, [] => []
  | fuel + 1, l => l.take n :: chunksOfAux n fuel (l.drop n)

/-- Chunking with enough fuel to exhaust the list; a zero chunk size
yields no chunks, matching the immediate `break` on an empty slice. -/
def chunksOf (n : Nat) (l : List α) : List (List α) :=
  if n = 0 then [] else chunksOfAux n l.length l

/-- Sequential fixed-effects run (__main__.py, `options.cpu == 1`):
fit each yielded tuple in turn and aggregate. -/
def run_sequential (f : IterYield → Seer) (items : List IterYield)
    (output_patterns : Bool) : AggState :=
  items.foldl (fun st it => agg_step output_patterns st (f it)) aggInit

/-- Pooled fixed-effects run (__main__.py, `options.cpu > 1`): slice the
yield stream into chunks of `cpu * kmer_per_core` tuples, map the worker
over each chunk preserving order (`pool.starmap`), and aggregate the
chunk results in order. -/
def run_parallel (cpu : Nat) (f : IterYield → Seer) (items : List IterYield)
    (output_patterns : Bool) : AggState :=
  (chunksOf (cpu * kmer_per_core) items).foldl
    (fun st chunk => (chunk.map f).foldl (agg_step output_patterns) st) aggInit

/-! ### LMM driver loop (__main__.py, `options.lmm` branch) -/

/-- A fitted per-variant result as consumed by the LMM printing loop:
the fields the loop reads are the pattern, the likelihood-ratio p-value
and the payload that would be formatted. -/
structure FittedVar where
  kmer : String
  pattern : List Nat
  pvalue : ℚ
  frac_h2 : ℚ
deriving Repr, DecidableEq

/-- State of the LMM driver: diagnostic counters, pattern sink and
printed records.  `filteredR` again is not a source counter; it counts
the fitted results rejected by the p-value threshold. -/
structure LmmState where
  prefilter : Nat
  tested : Nat
  printed : Nat
  filteredR : Nat
  patterns : List (List Nat)
  output : List FittedVar
deriving Repr

/-- Starting LMM driver state. -/
def lmmInit : LmmState := ⟨0, 0, 0, 0, [], []⟩

/-- The per-block result loop of the LMM path (__main__.py): every
fitted variant has its pattern written to the sink when requested, and
is printed exactly when its p-value is strictly below the
likelihood-ratio threshold. -/
def lmm_process (output_patterns : Bool) (lrt_pvalue : ℚ)
    (st : LmmState) (fitted : List FittedVar) : LmmState :=
  fitted.foldl (fun st v =>
    let st1 := { st with
      patterns := if output_patterns then st.patterns ++ [v.pattern] else st.patterns }
    if v.pvalue < lrt_pvalue then
      { st1 with printed := st1.printed + 1, output := st1.output ++ [v] }
    else
      { st1 with filteredR := st1.filteredR + 1 }) st

/-- The LMM driver loop (__main__.py): load a block, accumulate its
counters, fit the block when it admitted any variant (`fit` models
`lmm.fit_lmm`, whose module is external to the verified sources), and
consume the fitted results; repeat until the loader signals
end-of-stream.  `fuel` bounds the number of blocks; any run is an
instance for some fuel. -/
def lmm_driver (P : BlockParams)
    (fit : List LMMRec → List (List Nat) → List FittedVar)
    (output_patterns : Bool) (lrt_pvalue : ℚ) (block_size : Nat) :
    Nat → VarFile → List (String × String) → LmmState → LmmState
  | 0, _, _, st => st
  | fuel + 1, f, regs, st =>
      let out := load_var_block P block_size f regs
      let st1 := { st with
        prefilter := st.prefilter + out.counts.prefilter,
        tested := st.tested + out.counts.tested }
      let st2 :=
        if out.counts.tested > 0 then
          lmm_process output_patterns lrt_pvalue st1 (fit out.variants out.variant_mat)
        else st1
      if out.eof then st2
      else lmm_driver P fit output_patterns lrt_pvalue block_size fuel out.file out.regions st2

/-! ### Startup configuration checks (`main`, __main__.py) -/

/-- The configuration fields read by the argument checks at the top of
`main`, before any file is opened.  Path-valued options are modelled by
whether they were supplied. -/
structure MainOptions where
  max_dimensions : Int
  cpu : Int
  py_major : Nat
  burden : Bool
  vcf : Bool
  lmm : Bool
  distances : Bool
  load_m : Bool
  similarity : Bool
  load_lmm : Bool

/-- Embedding of the argument checks at the top of `main` (__main__.py),
in source order; each failing check writes a diagnostic and exits with
status 1. -/
def check_args (o : MainOptions) : Option Nat :=
  if o.max_dimensions < 1 then some 1
  else if o.cpu > 1 ∧ o.py_major < 3 then some 1
  else if o.burden ∧ ¬ o.vcf then some 1
  else if (o.lmm ∧ (o.distances ∨ o.load_m)) ∨
          (¬ o.lmm ∧ (o.similarity ∨ o.load_lmm)) then some 1
  else if o.cpu > 1 ∧ o.lmm then some 1
  else none

/-- Shape of `main` relevant to configuration errors: the argument
checks run first, and only when they all pass does the continuation run
(phenotype loading, variant-stream opening and the association loops all
live inside the continuation). -/
def main_start (o : MainOptions) (runRest : Unit → α) : Except Nat α :=
  match check_args o with
  | some code => Except.error code
  | none => Except.ok (runRest ())

/-! ## Helper lemmas -/

/-- The allele frequency computed via `mkRat` coincides with the float
division `len(kstrains) / len(all_strains)` of the source. -/
theorem af_mkRat_eq_div (a b : Nat) : (mkRat a b : ℚ) = (a : ℚ) / (b : ℚ) := by
  rw [Rat.mkRat_eq_div]
  push_cast
  ring

theorem mem_insertSorted {x a : Sample} {l : List Sample} :
    x ∈ insertSorted a l ↔ x = a ∨ x ∈ l := by
  induction l with
  | nil => simp [insertSorted]
  | cons b t ih =>
      by_cases h : strLe a b
      · simp [insertSorted, h, ih]
      · simp [insertSorted, h, ih]
        tauto

theorem mem_sortStr {x : Sample} {l : List Sample} :
    x ∈ sortStr l ↔ x ∈ l := by
  induction l with
  | nil => simp [sortStr]
  | cons b t ih =>
      simp only [sortStr, List.foldr_cons] at *
      rw [mem_insertSorted, ih]
      simp

theorem colNZ_zeroCol (n : Nat) : colNZ (zeroCol n) = false := by
  simp [colNZ, zeroCol, List.all_eq_true, List.mem_replicate]

theorem colNZ_of_one_mem {c : List Nat} (h : 1 ∈ c) : colNZ c = true := by
  simp only [colNZ]
  cases hall : c.all (fun x => x == 0) with
  | false => rfl
  | true =>
      exfalso
      have := List.all_eq_true.mp hall 1 h
      simp at this

/-- A readable record produced by the common post-processing with a
positive allele frequency has a nonzero indicator column, provided the
sample universe is contained in the phenotype index. -/
theorem postProcess_colNZ {d : List Sample} {nm : String}
    {pIndex alls : List Sample} {k : List Nat} {a : ℚ}
    (hsub : ∀ s ∈ alls, s ∈ pIndex)
    (hk : (postProcess d nm pIndex alls).k = some k)
    (ha : (postProcess d nm pIndex alls).af = some a)
    (hpos : 0 < a) : colNZ k = true := by
  simp only [postProcess] at hk ha
  obtain rfl : a = mkRat (sortStr (alls.filter (fun s => d.contains s))).length alls.length :=
    (Option.some.injEq _ _ ▸ ha).symm
  set kstrains := sortStr (alls.filter (fun s => d.contains s)) with hks
  have hne : kstrains ≠ [] := by
    intro hnil
    rw [hnil] at hpos
    simp [af_mkRat_eq_div] at hpos
  obtain ⟨s, hs⟩ := List.exists_mem_of_ne_nil _ hne
  have hsmem : s ∈ alls.filter (fun x => d.contains x) := mem_sortStr.mp hs
  have hsall : s ∈ alls := List.mem_of_mem_filter hsmem
  have hsd : d.contains s = true := by
    have := List.of_mem_filter hsmem
    simpa using this
  apply colNZ_of_one_mem
  obtain rfl : k = pIndex.filterMap (fun x =>
      if d.contains x then some 1
      else if (sortStr (alls.filter (fun x => !(d.contains x)))).contains x then some 0
      else none) := (Option.some.injEq _ _ ▸ hk).symm
  have hsdm : s ∈ d := by simpa using hsd
  exact List.mem_filterMap.mpr ⟨s, hsub s hsall, by simp [hsdm]⟩

/-- Every readable record returned by `read_variant` with a positive
allele frequency has a nonzero indicator column, provided the sample
universe is contained in the phenotype index. -/
theorem read_variant_colNZ {f : VarFile} {pIndex alls sorder : List Sample}
    {regs : List (String × String)} {k : List Nat} {a : ℚ}
    (hsub : ∀ s ∈ alls, s ∈ pIndex)
    (hk : (read_variant f pIndex regs alls sorder).1.k = some k)
    (ha : (read_variant f pIndex regs alls sorder).1.af = some a)
    (hpos : 0 < a) : colNZ k = true := by
  unfold read_variant at hk ha
  rcases hstep : read_step f regs sorder with ⟨o, f2, r2⟩
  rw [hstep] at hk ha
  match o with
  | none => simp at hk
  | some none => simp at hk
  | some (some (nm, d)) =>
      simp only at hk ha
      exact postProcess_colNZ hsub hk ha hpos

theorem lvb_step_variants (P : BlockParams) (acc : BlockAcc) (res : ReadOut) :
    (lvb_step P acc res).variants = acc.variants ++ (pairStep P res).map Prod.fst := by
  rcases res with ⟨eof, k?, nm?, ks, nks, a?⟩
  cases k? with
  | none => cases a? <;> simp [lvb_step, pairStep]
  | some k =>
      cases a? with
      | none => simp [lvb_step, pairStep]
      | some a =>
          by_cases haf : P.min_af ≤ a ∧ a ≤ P.max_af
          · by_cases hc : P.continuous = true
            · by_cases hp : (0 : ℚ) < P.filter_pvalue
              · simp [lvb_step, pairStep, haf, hc, hp]
              · simp [lvb_step, pairStep, haf, hc, hp]
            · by_cases hp : (P.pre k).1 < P.filter_pvalue
              · simp [lvb_step, pairStep, haf, hc, hp]
              · simp [lvb_step, pairStep, haf, hc, hp]
          · simp [lvb_step, pairStep, haf]

theorem lvb_step_prefilter (P : BlockParams) (acc : BlockAcc) (res : ReadOut) :
    (lvb_step P acc res).prefilter = acc.prefilter + prefStep P res := by
  rcases res with ⟨eof, k?, nm?, ks, nks, a?⟩
  cases k? with
  | none => cases a? <;> simp [lvb_step, prefStep]
  | some k =>
      cases a? with
      | none => simp [lvb_step, prefStep]
      | some a =>
          by_cases haf : P.min_af ≤ a ∧ a ≤ P.max_af
          · by_cases hc : P.continuous = true
            · by_cases hp : (0 : ℚ) < P.filter_pvalue
              · simp [lvb_step, prefStep, haf, hc, hp]
              · simp [lvb_step, prefStep, haf, hc, hp]
            · by_cases hp : (P.pre k).1 < P.filter_pvalue
              · simp [lvb_step, prefStep, haf, hc, hp]
              · simp [lvb_step, prefStep, haf, hc, hp]
          · simp [lvb_step, prefStep, haf]

theorem lvb_step_cols (P : BlockParams) (acc : BlockAcc) (res : ReadOut)
    (hnz : ∀ k a, res.k = some k → res.af = some a →
      P.min_af ≤ a ∧ a ≤ P.max_af → colNZ k = true) :
    (lvb_step P acc res).cols.filter colNZ =
      acc.cols.filter colNZ ++ (pairStep P res).map Prod.snd := by
  rcases res with ⟨eof, k?, nm?, ks, nks, a?⟩
  cases k? with
  | none => cases a? <;> simp [lvb_step, pairStep, colNZ_zeroCol]
  | some k =>
      cases a? with
      | none => simp [lvb_step, pairStep, colNZ_zeroCol]
      | some a =>
          by_cases haf : P.min_af ≤ a ∧ a ≤ P.max_af
          · have hkz : colNZ k = true := hnz k a rfl rfl haf
            by_cases hc : P.continuous = true
            · by_cases hp : (0 : ℚ) < P.filter_pvalue
              · simp [lvb_step, pairStep, haf, hc, hp, hkz]
              · simp [lvb_step, pairStep, haf, hc, hp, colNZ_zeroCol]
            · by_cases hp : (P.pre k).1 < P.filter_pvalue
              · simp [lvb_step, pairStep, haf, hc, hp, hkz]
              · simp [lvb_step, pairStep, haf, hc, hp, colNZ_zeroCol]
          · simp [lvb_step, pairStep, haf, colNZ_zeroCol]

/-- Joint characterization of the `load_var_block` loop: the admitted
records, the compacted columns and the prefilter count are exactly the
reference traversal's, provided the minimum AF is positive (so that
every admitted column is nonzero) and the sample universe lies inside
the phenotype index. -/
theorem lvb_loop_spec (P : BlockParams)
    (hsub : ∀ s ∈ P.all_strains, s ∈ P.pIndex) (hmin : 0 < P.min_af) :
    ∀ (n : Nat) (f : VarFile) (regs : List (String × String)) (acc : BlockAcc),
      (lvb_loop P n f regs acc).1.variants =
          acc.variants ++ (blockPairs P n f regs).map Prod.fst ∧
      (lvb_loop P n f regs acc).1.cols.filter colNZ =
          acc.cols.filter colNZ ++ (blockPairs P n f regs).map Prod.snd ∧
      (lvb_loop P n f regs acc).1.prefilter = acc.prefilter + blockPref P n f regs := by
  intro n
  induction n with
  | zero => intro f regs acc; simp [lvb_loop, blockPairs, blockPref]
  | succ n ih =>
      intro f regs acc
      rcases hrv : read_variant f P.pIndex regs P.all_strains P.sample_order with ⟨res, f2, r2⟩
      have hnz : ∀ k a, res.k = some k → res.af = some a →
          P.min_af ≤ a ∧ a ≤ P.max_af → colNZ k = true := by
        intro k a hk ha haf
        exact read_variant_colNZ hsub (by rw [hrv]; exact hk) (by rw [hrv]; exact ha)
          (lt_of_lt_of_le hmin haf.1)
      simp only [lvb_loop, blockPairs, blockPref, hrv]
      cases heof : res.eof with
      | true => simp
      | false =>
          simp only [Bool.false_eq_true, if_false]
          rcases ih f2 r2 (lvb_step P acc res) with ⟨h1, h2, h3⟩
          refine ⟨?_, ?_, ?_⟩
          · rw [h1, lvb_step_variants, List.map_append, List.append_assoc]
          · rw [h2, lvb_step_cols P acc res hnz, List.map_append, List.append_assoc]
          · rw [h3, lvb_step_prefilter]
            omega

/-- The `tested` count reported by `load_var_block` is the length of the
returned record list. -/
theorem load_var_block_tested (P : BlockParams) (bs : Nat) (f : VarFile)
    (regs : List (String × String)) :
    (load_var_block P bs f regs).counts.tested =
      (load_var_block P bs f regs).variants.length := by
  rcases h : lvb_loop P bs f regs ⟨0, [], []⟩ with ⟨acc, e, f2, r2⟩
  simp [load_var_block, h]

/-- Decomposition of `load_var_block` through the reference traversal,
under a positive minimum AF and a sample universe inside the phenotype
index: the record list and the compacted matrix are the two projections
of the same admitted pair list, and the counters are the reference
counts. -/
theorem load_var_block_spec (P : BlockParams) (bs : Nat) (f : VarFile)
    (regs : List (String × String))
    (hsub : ∀ s ∈ P.all_strains, s ∈ P.pIndex) (hmin : 0 < P.min_af) :
    (load_var_block P bs f regs).variants = (blockPairs P bs f regs).map Prod.fst ∧
    (load_var_block P bs f regs).variant_mat = (blockPairs P bs f regs).map Prod.snd ∧
    (load_var_block P bs f regs).counts.prefilter = blockPref P bs f regs := by
  have hspec := lvb_loop_spec P hsub hmin bs f regs ⟨0, [], []⟩
  rcases hloop : lvb_loop P bs f regs ⟨0, [], []⟩ with ⟨acc, e, f2, r2⟩
  rw [hloop] at hspec
  obtain ⟨h1, h2, h3⟩ := hspec
  have h1' : acc.variants = (blockPairs P bs f regs).map Prod.fst := by simpa using h1
  have h2' : acc.cols.filter colNZ = (blockPairs P bs f regs).map Prod.snd := by
    simpa using h2
  have h3' : acc.prefilter = blockPref P bs f regs := by simpa using h3
  have hrep : (List.replicate (bs - acc.cols.length) (zeroCol P.pIndex.length)).filter
      colNZ = [] := by
    apply List.filter_eq_nil_iff.mpr
    intro c hc
    rw [List.eq_of_mem_replicate hc]
    simp [colNZ_zeroCol]
  refine ⟨?_, ?_, ?_⟩
  · simp [load_var_block, hloop, h1']
  · simp only [load_var_block, hloop]
    rw [List.filter_append, hrep, List.append_nil, h2']
  · simp [load_var_block, hloop, h3']

/-- Partition of a list length by a boolean test. -/
theorem length_filter_add_length_not (p : α → Bool) (l : List α) :
    (l.filter p).length + (l.filter (fun a => !(p a))).length = l.length := by
  induction l with
  | nil => simp
  | cons a t ih =>
      by_cases h : p a
      · simp [List.filter_cons, h]
        omega
      · simp [List.filter_cons, h]
        omega

/-- Full characterization of the LMM per-block result loop: every
fitted pattern goes to the sink when requested, and the results printed
are exactly those with p-value strictly below the likelihood-ratio
threshold, in order; the rest are rejected. -/
theorem lmm_process_spec (op : Bool) (lrt : ℚ) (st : LmmState)
    (fitted : List FittedVar) :
    lmm_process op lrt st fitted = { st with
      patterns := st.patterns ++
        (if op then fitted.map (fun v => v.pattern) else []),
      printed := st.printed +
        (fitted.filter (fun v => decide (v.pvalue < lrt))).length,
      output := st.output ++ fitted.filter (fun v => decide (v.pvalue < lrt)),
      filteredR := st.filteredR +
        (fitted.filter (fun v => !(decide (v.pvalue < lrt)))).length } := by
  induction fitted generalizing st with
  | nil => cases op <;> simp [lmm_process]
  | cons v rest ih =>
      unfold lmm_process at ih ⊢
      simp only [List.foldl_cons]
      rw [ih]
      by_cases hv : v.pvalue < lrt
      · cases op <;>
          simp [hv, List.filter_cons, List.append_assoc, Nat.add_comm, Nat.add_left_comm,
            Nat.add_assoc]
      · cases op <;>
          simp [hv, List.filter_cons, List.append_assoc, Nat.add_comm, Nat.add_left_comm,
            Nat.add_assoc]

theorem chunksOfAux_join {α : Type _} (n : Nat) (hn : 0 < n) :
    ∀ (fuel : Nat) (l : List α), l.length ≤ fuel → (chunksOfAux n fuel l).flatten = l := by
  intro fuel
  induction fuel with
  | zero =>
      intro l hl
      have : l = [] := List.eq_nil_of_length_eq_zero (Nat.le_zero.mp hl)
      subst this
      simp [chunksOfAux]
  | succ fuel ih =>
      intro l hl
      cases l with
      | nil => simp [chunksOfAux]
      | cons a t =>
          simp only [chunksOfAux, List.flatten_cons]
          rw [ih]
          · exact List.take_append_drop n (a :: t)
          · rw [List.length_drop]
            simp only [List.length_cons] at hl ⊢
            omega

theorem chunksOf_join {α : Type _} (n : Nat) (hn : 0 < n) (l : List α) :
    (chunksOf n l).flatten = l := by
  unfold chunksOf
  rw [if_neg (Nat.pos_iff_ne_zero.mp hn)]
  exact chunksOfAux_join n hn l.length l le_rfl

theorem foldl_map_join {σ α β : Type _} (g : σ → β → σ) (f : α → β) :
    ∀ (chs : List (List α)) (st : σ),
      chs.foldl (fun s c => (c.map f).foldl g s) st = (chs.flatten.map f).foldl g st := by
  intro chs
  induction chs with
  | nil => intro st; simp
  | cons c t ih =>
      intro st
      simp [List.flatten_cons, List.map_append, List.foldl_append, ih]

/-- The aggregation loop of the fixed-effects path preserves the
partition of the tested count into filtered and printed results. -/
theorem agg_fold_partition (op : Bool) :
    ∀ (results : List Seer) (st : AggState),
      st.tested = st.filteredR + st.printed →
      (results.foldl (agg_step op) st).tested =
        (results.foldl (agg_step op) st).filteredR +
          (results.foldl (agg_step op) st).printed := by
  intro results
  induction results with
  | nil => intro st h; simpa
  | cons x t ih =>
      intro st h
      simp only [List.foldl_cons]
      apply ih
      unfold agg_step
      by_cases hx : x.prefilter = true
      · simp [hx, h]
      · by_cases hf : x.filter = true
        · simp [hx, hf]
          omega
        · simp [hx, hf]
          omega

/-- The LMM driver preserves the partition of the tested count into
rejected and printed results, provided the block fit returns one result
per admitted record. -/
theorem lmm_driver_partition (P : BlockParams)
    (fit : List LMMRec → List (List Nat) → List FittedVar)
    (op : Bool) (lrt : ℚ) (bs : Nat)
    (hfit : ∀ vs m, (fit vs m).length = vs.length) :
    ∀ (fuel : Nat) (f : VarFile) (regs : List (String × String)) (st : LmmState),
      st.tested = st.filteredR + st.printed →
      (lmm_driver P fit op lrt bs fuel f regs st).tested =
        (lmm_driver P fit op lrt bs fuel f regs st).filteredR +
          (lmm_driver P fit op lrt bs fuel f regs st).printed := by
  intro fuel
  induction fuel with
  | zero => intro f regs st h; simpa [lmm_driver]
  | succ fuel ih =>
      intro f regs st h
      have hpart := length_filter_add_length_not (fun v => decide (v.pvalue < lrt))
        (fit (load_var_block P bs f regs).variants (load_var_block P bs f regs).variant_mat)
      have hlen := hfit (load_var_block P bs f regs).variants
        (load_var_block P bs f regs).variant_mat
      have htv := load_var_block_tested P bs f regs
      simp only [lmm_driver]
      by_cases ht : (load_var_block P bs f regs).counts.tested > 0
      · rw [if_pos ht, lmm_process_spec]
        by_cases he : (load_var_block P bs f regs).eof = true
        · rw [if_pos he]
          simp only
          omega
        · rw [if_neg he]
          apply ih
          simp only
          omega
      · rw [if_neg ht]
        by_cases he : (load_var_block P bs f regs).eof = true
        · rw [if_pos he]
          simp only
          omega
        · rw [if_neg he]
          apply ih
          simp only
          omega

/-! ## Claim theorems -/

/-- C9: `hash_pattern` is deterministic — the same indicator vector
always produces the same digest — and any two variants whose indicator
byte views are identical (after the canonical sample ordering imposed by
`postProcess`) receive identical pattern hashes, regardless of which
source format produced them: both code paths apply the same
`hash_pattern` to the canonical vector. -/
theorem C9_hash_pattern_deterministic :
    (∀ v : List Nat, hash_pattern v = hash_pattern v) ∧
    (∀ v1 v2 : List Nat, indicator_bytes v1 = indicator_bytes v2 →
      hash_pattern v1 = hash_pattern v2) := by
  refine ⟨fun v => rfl, fun v1 v2 h => ?_⟩
  unfold hash_pattern
  rw [h]

/-- Witness for C9 at a concrete indicator vector. -/
theorem C9_hash_pattern_deterministic_witness :
    hash_pattern [1, 0, 1, 0] = hash_pattern [1, 0, 1, 0] :=
  C9_hash_pattern_deterministic.2 [1, 0, 1, 0] [1, 0, 1, 0] rfl

/-- C7: a configuration requesting the LMM path with more than one
worker is rejected by the startup checks with exit status 1, before the
continuation holding all input reading (phenotype loading and the
variant stream) can run — the outcome does not depend on the
continuation at all. -/
theorem C7_lmm_multicore_fatal_before_input (o : MainOptions) {α : Type}
    (runRest runRest2 : Unit → α)
    (hlmm : o.lmm = true) (hcpu : 1 < o.cpu) :
    main_start o runRest = Except.error 1 ∧
    main_start o runRest = main_start o runRest2 := by
  have hchk : check_args o = some 1 := by
    unfold check_args
    split
    · rfl
    · split
      · rfl
      · split
        · rfl
        · split
          · rfl
          · split
            · rfl
            · rename_i h5
              exact absurd ⟨hcpu, hlmm⟩ h5
  constructor
  · simp [main_start, hchk]
  · simp [main_start, hchk]

/-- Witness for C7 at a concrete configuration with two workers. -/
theorem C7_lmm_multicore_fatal_before_input_witness :
    (1 : Int) < 2 ∧
    main_start ⟨10, 2, 3, false, false, true, false, false, true, false⟩
      (fun _ => (0 : Nat)) = Except.error 1 :=
  ⟨by norm_num,
   (C7_lmm_multicore_fatal_before_input _ (fun _ => (0 : Nat)) (fun _ => (0 : Nat))
      rfl (by norm_num)).1⟩

/-- C6 (amended): in the LMM result loop a fitted result is rejected to
filtered exactly when its likelihood-ratio p-value is at or above the
configured threshold — the printed results are exactly those with
p-value strictly below it, so a p-value equal to the threshold is
rejected, not printed. -/
theorem C6_amended_lmm_reject_iff_pvalue_ge (op : Bool) (lrt : ℚ)
    (st : LmmState) (fitted : List FittedVar) :
    (lmm_process op lrt st fitted).output =
        st.output ++ fitted.filter (fun v => decide (v.pvalue < lrt)) ∧
    (lmm_process op lrt st fitted).printed =
        st.printed + (fitted.filter (fun v => decide (v.pvalue < lrt))).length ∧
    (lmm_process op lrt st fitted).filteredR =
        st.filteredR + (fitted.filter (fun v => !(decide (v.pvalue < lrt)))).length := by
  rw [lmm_process_spec]
  exact ⟨rfl, rfl, rfl⟩

/-- Counterexample to C6 as stated: a fitted result whose p-value equals
the threshold exactly is not printed (the loop prints only on a strict
inequality), although the claim predicts it is accepted and printed. -/
theorem C6_counterexample_equal_pvalue_rejected :
    (lmm_process true (mkRat 1 2) lmmInit [⟨"v", [], mkRat 1 2, 0⟩]).printed = 0 ∧
    (lmm_process true (mkRat 1 2) lmmInit [⟨"v", [], mkRat 1 2, 0⟩]).output = [] ∧
    (lmm_process true (mkRat 1 2) lmmInit [⟨"v", [], mkRat 1 2, 0⟩]).filteredR = 1 ∧
    ¬ ((mkRat 1 2 : ℚ) > mkRat 1 2) := by
  refine ⟨by decide, by decide, by decide, by decide⟩

/-- C4: the AF filter keeps a readable variant exactly when its allele
frequency lies in the closed interval from `min_af` to `max_af` —
boundary equality is retained, any value strictly outside is rejected to
prefilter — and the same closed-interval test governs both the
fixed-effects path (`iter_variants`) and the LMM path
(`load_var_block`). -/
theorem C4_af_closed_interval (P : FixedParams) (Q : BlockParams)
    (acc : BlockAcc) (res : ReadOut) (k : List Nat) (af : ℚ)
    (hk : res.k = some k) (ha : res.af = some af) :
    ((P.min_af ≤ af ∧ af ≤ P.max_af) →
      (iter_variants_yield P res).isItem = true) ∧
    ((af < P.min_af ∨ P.max_af < af) →
      iter_variants_yield P res = .skip) ∧
    ((Q.min_af ≤ af ∧ af ≤ Q.max_af) →
      (lvb_step Q acc res).prefilter = acc.prefilter) ∧
    ((af < Q.min_af ∨ Q.max_af < af) →
      (lvb_step Q acc res).prefilter = acc.prefilter + 1) := by
  refine ⟨?_, ?_, ?_, ?_⟩
  · intro haf
    simp [iter_variants_yield, hk, ha, haf, IterYield.isItem]
  · intro haf
    have hnot : ¬ (P.min_af ≤ af ∧ af ≤ P.max_af) := by
      rcases haf with h | h
      · exact fun hc => absurd hc.1 (not_le.mpr h)
      · exact fun hc => absurd hc.2 (not_le.mpr h)
    simp [iter_variants_yield, hk, ha, hnot]
  · intro haf
    rw [lvb_step_prefilter]
    simp [prefStep, hk, ha, haf]
  · intro haf
    have hnot : ¬ (Q.min_af ≤ af ∧ af ≤ Q.max_af) := by
      rcases haf with h | h
      · exact fun hc => absurd hc.1 (not_le.mpr h)
      · exact fun hc => absurd hc.2 (not_le.mpr h)
    rw [lvb_step_prefilter]
    simp [prefStep, hk, ha, hnot]

/-- Witness for C4 at a variant whose AF sits exactly on both bounds:
it is retained in both paths. -/
theorem C4_af_closed_interval_witness :
    ((mkRat 1 2 : ℚ) ≤ mkRat 1 2) ∧
    (iter_variants_yield
        ⟨["s1"], [1], [], [], ["s1"], [], false, mkRat 1 2, mkRat 1 2, 1, 1, false⟩
        ⟨false, some [1], some "v", ["s1"], [], some (mkRat 1 2)⟩).isItem = true ∧
    (lvb_step
        ⟨["s1"], ["s1"], [], mkRat 1 2, mkRat 1 2, 1, true, fun _ => (0, false)⟩
        ⟨0, [], []⟩
        ⟨false, some [1], some "v", ["s1"], [], some (mkRat 1 2)⟩).prefilter = 0 :=
  ⟨le_refl _,
   (C4_af_closed_interval _
      ⟨["s1"], ["s1"], [], mkRat 1 2, mkRat 1 2, 1, true, fun _ => (0, false)⟩
      ⟨0, [], []⟩ _ [1] (mkRat 1 2) rfl rfl).1 ⟨le_refl _, le_refl _⟩,
   (C4_af_closed_interval
      ⟨["s1"], [1], [], [], ["s1"], [], false, mkRat 1 2, mkRat 1 2, 1, 1, false⟩
      _ _ _ [1] (mkRat 1 2) rfl rfl).2.2.1 ⟨le_refl _, le_refl _⟩⟩

/-- C8: in burden mode, a well-formed region descriptor whose interval
overlaps no call record in the indexed source still yields a valid
record — not end-of-stream, indicator present and all zero, empty
presence list and allele frequency zero — so the run continues with a
"no signal" variant instead of failing. -/
theorem C8_burden_empty_region_nonfatal
    (fetch : String → Int → Int → List VcfRecord)
    (pIndex alls sorder : List Sample) (vname rspec : String)
    (rest : List (String × String)) (contig : String) (s e : Nat)
    (hparse : parse_region rspec = some (contig, s, e))
    (hfetch : fetch contig ((s : Int) - 1) (e : Int) = []) :
    (read_variant (.vcfIndexed fetch) pIndex ((vname, rspec) :: rest) alls sorder).1.eof
        = false ∧
    (read_variant (.vcfIndexed fetch) pIndex ((vname, rspec) :: rest) alls
        sorder).1.var_name = some vname ∧
    (read_variant (.vcfIndexed fetch) pIndex ((vname, rspec) :: rest) alls
        sorder).1.kstrains = [] ∧
    (read_variant (.vcfIndexed fetch) pIndex ((vname, rspec) :: rest) alls
        sorder).1.af = some 0 ∧
    ∃ l, (read_variant (.vcfIndexed fetch) pIndex ((vname, rspec) :: rest) alls
        sorder).1.k = some l ∧ l.all (fun x => x == 0) = true := by
  have hstep : read_step (.vcfIndexed fetch) ((vname, rspec) :: rest) sorder
      = (some (some (vname, [])), .vcfIndexed fetch, rest) := by
    simp only [read_step]
    rw [hparse]
    simp [hfetch]
  unfold read_variant
  rw [hstep]
  have hkfilter : alls.filter (fun x => (([] : List Sample).contains x)) = [] := by
    simp
  have hkstr : sortStr (alls.filter (fun x => (([] : List Sample).contains x))) = [] := by
    rw [hkfilter]
    rfl
  refine ⟨rfl, rfl, ?_, ?_, ?_⟩
  · simpa [postProcess] using hkstr
  · simp only [postProcess]
    rw [hkstr]
    simp
  · refine ⟨_, rfl, ?_⟩
    apply List.all_eq_true.mpr
    intro x hx
    simp only [postProcess] at hx
    obtain ⟨y, hy, hfy⟩ := List.mem_filterMap.mp hx
    rw [if_neg (by simp)] at hfy
    split at hfy
    · injection hfy with h
      subst h
      rfl
    · exact absurd hfy (by simp)

/-- Witness for C8 at a concrete region and an indexed source with no
overlapping records. -/
theorem C8_burden_empty_region_nonfatal_witness :
    parse_region "chr:1-5" = some ("chr", 1, 5) ∧
    (read_variant (.vcfIndexed (fun _ _ _ => [])) ["s1"] [("r1", "chr:1-5")]
        ["s1"] []).1.kstrains = [] ∧
    (read_variant (.vcfIndexed (fun _ _ _ => [])) ["s1"] [("r1", "chr:1-5")]
        ["s1"] []).1.af = some 0 :=
  ⟨by decide,
   (C8_burden_empty_region_nonfatal (fun _ _ _ => []) ["s1"] ["s1"] [] "r1" "chr:1-5"
      [] "chr" 1 5 (by decide) rfl).2.2.1,
   (C8_burden_empty_region_nonfatal (fun _ _ _ => []) ["s1"] ["s1"] [] "r1" "chr:1-5"
      [] "chr" 1 5 (by decide) rfl).2.2.2.1⟩

/-- Counterexample to C3 as stated: in the LMM path a malformed record
(here a multi-allelic call, which `read_vcf_var` rejects mid-stream, so
the read returns no indicator without end-of-stream) is counted: it
increments the prefilter counter of the block loader, although the claim
says it contributes to no counter. -/
theorem C3_counterexample_malformed_record_counted :
    (read_variant
        (.vcf [⟨"c", 5, ["A", "T", "G"], ["T", "G"], ["PASS"], [("s1", [some 1])]⟩])
        ["s1"] [] ["s1"] []).1.eof = false ∧
    (read_variant
        (.vcf [⟨"c", 5, ["A", "T", "G"], ["T", "G"], ["PASS"], [("s1", [some 1])]⟩])
        ["s1"] [] ["s1"] []).1.k = none ∧
    (load_var_block ⟨["s1"], ["s1"], [], mkRat 1 100, mkRat 99 100, 1, true,
        fun _ => (0, false)⟩ 10
      (.vcf [⟨"c", 5, ["A", "T", "G"], ["T", "G"], ["PASS"], [("s1", [some 1])]⟩])
      []).counts.prefilter = 1 ∧
    (load_var_block ⟨["s1"], ["s1"], [], mkRat 1 100, mkRat 99 100, 1, true,
        fun _ => (0, false)⟩ 10
      (.vcf [⟨"c", 5, ["A", "T", "G"], ["T", "G"], ["PASS"], [("s1", [some 1])]⟩])
      []).counts.tested = 0 := by
  refine ⟨by decide, by decide, by decide, by decide⟩

/-- C3 (amended): a record read back without an indicator before
end-of-stream is skipped — never fitted, never printed, its column
compacted away — and the block loader returns normally so the run
continues, but the record is counted: it increments the prefiltered
count (and hence the loaded total) rather than being excluded from all
counts.  Multi-allelic calls are one such case: `read_vcf_var` returns
no name for them, without signalling end-of-stream. -/
theorem C3_amended_malformed_skipped_but_prefiltered
    (P : BlockParams) (acc : BlockAcc) (res : ReadOut) (hk : res.k = none) :
    ((lvb_step P acc res).variants = acc.variants ∧
     (lvb_step P acc res).cols.filter colNZ = acc.cols.filter colNZ ∧
     (lvb_step P acc res).prefilter = acc.prefilter + 1) ∧
    (∀ (r : VcfRecord) (rest' : List VcfRecord) (pI alls so : List Sample),
      r.alts.length > 1 →
      (read_variant (.vcf (r :: rest')) pI [] alls so).1.k = none ∧
      (read_variant (.vcf (r :: rest')) pI [] alls so).1.eof = false) := by
  constructor
  · rcases res with ⟨eof, k?, nm?, ks, nks, a?⟩
    simp only at hk
    subst hk
    cases a? <;>
      simp [lvb_step, colNZ_zeroCol, List.filter_append]
  · intro r rest' pI alls so halts
    have hvar : read_vcf_var r [] = (none, []) := by
      unfold read_vcf_var
      rw [if_pos halts]
    constructor
    · simp [read_variant, read_step, hvar]
    · simp [read_variant, read_step, hvar]

/-- Witness for C3 (amended) at a concrete skipped record and a concrete
multi-allelic call. -/
theorem C3_amended_malformed_skipped_but_prefiltered_witness :
    ((lvb_step ⟨["s1"], ["s1"], [], 0, 1, 1, true, fun _ => (0, false)⟩ ⟨0, [], []⟩
        ⟨false, none, none, [], [], none⟩).prefilter = 0 + 1) ∧
    (read_variant (.vcf [⟨"c", 5, ["A", "T"], ["T", "G"], ["PASS"], []⟩])
        ["s1"] [] ["s1"] []).1.k = none :=
  ⟨((C3_amended_malformed_skipped_but_prefiltered
      ⟨["s1"], ["s1"], [], 0, 1, 1, true, fun _ => (0, false)⟩ ⟨0, [], []⟩
      ⟨false, none, none, [], [], none⟩ rfl).1).2.2,
   ((C3_amended_malformed_skipped_but_prefiltered
      ⟨["s1"], ["s1"], [], 0, 1, 1, true, fun _ => (0, false)⟩ ⟨0, [], []⟩
      ⟨false, none, none, [], [], none⟩ rfl).2 ⟨"c", 5, ["A", "T"], ["T", "G"], ["PASS"], []⟩
      [] ["s1"] ["s1"] [] (by decide)).1⟩

/-- Counterexample to C2 as stated: a variant that passes the AF bounds
but whose pre-test p-value reaches the filter threshold is excluded from
the block matrix (that part of the claim holds) but is not counted — the
block reports zero prefiltered and zero tested variants although one
readable AF-passing variant was consumed. -/
theorem C2_counterexample_pretest_failure_uncounted :
    (read_variant (.rtab [⟨"v2", ["1"]⟩]) ["s1"] [] ["s1"] ["s1"]).1.af
        = some (mkRat 1 1) ∧
    (read_variant (.rtab [⟨"v2", ["1"]⟩]) ["s1"] [] ["s1"] ["s1"]).1.eof = false ∧
    (load_var_block ⟨["s1"], ["s1"], ["s1"], 0, 1, 0, true, fun _ => (0, false)⟩ 5
        (.rtab [⟨"v2", ["1"]⟩]) []).variant_mat = [] ∧
    (load_var_block ⟨["s1"], ["s1"], ["s1"], 0, 1, 0, true, fun _ => (0, false)⟩ 5
        (.rtab [⟨"v2", ["1"]⟩]) []).counts.tested = 0 ∧
    (load_var_block ⟨["s1"], ["s1"], ["s1"], 0, 1, 0, true, fun _ => (0, false)⟩ 5
        (.rtab [⟨"v2", ["1"]⟩]) []).counts.prefilter = 0 := by
  refine ⟨by decide, by decide, by decide, by decide, by decide⟩

/-- C2 (amended): in the LMM path a variant that passes the AF bounds
but whose cheap pre-test p-value is at or above the filter threshold is
excluded from the block matrix (its pre-allocated column stays zero and
is compacted away), but it is not counted as filtered or tested — no
counter changes for it. -/
theorem C2_amended_pretest_excluded_but_uncounted
    (P : BlockParams) (acc : BlockAcc) (res : ReadOut) (k : List Nat) (af : ℚ)
    (hk : res.k = some k) (ha : res.af = some af)
    (haf : P.min_af ≤ af ∧ af ≤ P.max_af)
    (hprep : ¬ ((if ¬ P.continuous then (P.pre k).1 else 0) < P.filter_pvalue)) :
    (lvb_step P acc res).variants = acc.variants ∧
    (lvb_step P acc res).cols = acc.cols ++ [zeroCol P.pIndex.length] ∧
    (lvb_step P acc res).cols.filter colNZ = acc.cols.filter colNZ ∧
    (lvb_step P acc res).prefilter = acc.prefilter := by
  rcases res with ⟨eof, k?, nm?, ks, nks, a?⟩
  simp only at hk ha
  subst hk
  subst ha
  by_cases hc : P.continuous = true
  · have hp0 : ¬ ((0 : ℚ) < P.filter_pvalue) := by simpa [hc] using hprep
    refine ⟨?_, ?_, ?_, ?_⟩ <;>
      simp [lvb_step, haf, hc, hp0, colNZ_zeroCol, List.filter_append]
  · have hp1 : ¬ ((P.pre k).1 < P.filter_pvalue) := by simpa [hc] using hprep
    refine ⟨?_, ?_, ?_, ?_⟩ <;>
      simp [lvb_step, haf, hc, hp1, colNZ_zeroCol, List.filter_append]

/-- Witness for C2 (amended) at a concrete AF-passing variant whose
pre-test p-value equals the threshold. -/
theorem C2_amended_pretest_excluded_but_uncounted_witness :
    ((0 : ℚ) ≤ 1 ∧ (1 : ℚ) ≤ 1) ∧
    (lvb_step ⟨["s1"], ["s1"], [], 0, 1, 0, true, fun _ => (0, false)⟩ ⟨0, [], []⟩
        ⟨false, some [1], some "v", ["s1"], [], some 1⟩).variants = [] ∧
    (lvb_step ⟨["s1"], ["s1"], [], 0, 1, 0, true, fun _ => (0, false)⟩ ⟨0, [], []⟩
        ⟨false, some [1], some "v", ["s1"], [], some 1⟩).prefilter = 0 :=
  ⟨⟨by norm_num, le_refl _⟩,
   (C2_amended_pretest_excluded_but_uncounted
      ⟨["s1"], ["s1"], [], 0, 1, 0, true, fun _ => (0, false)⟩ ⟨0, [], []⟩
      ⟨false, some [1], some "v", ["s1"], [], some 1⟩ [1] 1 rfl rfl
      ⟨by norm_num, le_refl _⟩ (by norm_num)).1,
   (C2_amended_pretest_excluded_but_uncounted
      ⟨["s1"], ["s1"], [], 0, 1, 0, true, fun _ => (0, false)⟩ ⟨0, [], []⟩
      ⟨false, some [1], some "v", ["s1"], [], some 1⟩ [1] 1 rfl rfl
      ⟨by norm_num, le_refl _⟩ (by norm_num)).2.2.2⟩

/-- Counterexample to C1 as stated: a run of the LMM driver over a
stream holding exactly one readable variant that passes the AF bounds
but whose pre-test p-value (here 1, with the default filter threshold 1)
is not strictly below the threshold ends with every counter at zero —
the variant reached the block loader yet is counted in none of
prefiltered, tested, filtered or printed, so the counts do not partition
the variant stream. -/
theorem C1_counterexample_pretest_dropped_from_all_counts :
    (read_variant (.kmers [⟨"v", ["s1:1"]⟩]) ["s1"] [] ["s1"] []).1.eof = false ∧
    (read_variant (.kmers [⟨"v", ["s1:1"]⟩]) ["s1"] [] ["s1"] []).1.af
        = some (mkRat 1 1) ∧
    ((0 : ℚ) ≤ mkRat 1 1 ∧ (mkRat 1 1 : ℚ) ≤ 1) ∧
    (lmm_driver ⟨["s1"], ["s1"], [], 0, 1, 1, false, fun _ => (1, false)⟩
        (fun _ _ => []) false 1 10 2 (.kmers [⟨"v", ["s1:1"]⟩]) [] lmmInit).prefilter
        = 0 ∧
    (lmm_driver ⟨["s1"], ["s1"], [], 0, 1, 1, false, fun _ => (1, false)⟩
        (fun _ _ => []) false 1 10 2 (.kmers [⟨"v", ["s1:1"]⟩]) [] lmmInit).tested
        = 0 ∧
    (lmm_driver ⟨["s1"], ["s1"], [], 0, 1, 1, false, fun _ => (1, false)⟩
        (fun _ _ => []) false 1 10 2 (.kmers [⟨"v", ["s1:1"]⟩]) [] lmmInit).printed
        = 0 := by
  refine ⟨by decide, by decide, by decide, by decide, by decide, by decide⟩

/-- C1 (amended): the counter identities hold on both paths — the
loaded diagnostic is by construction `prefiltered + tested`, the tested
count partitions into filtered plus printed, and `printed ≤ tested` —
but the partition covers only the variants that are either prefiltered
or admitted to fitting: an AF-passing variant that fails the LMM
pre-test is dropped from every counter, so the counts do not partition
the full variant stream. -/
theorem C1_amended_counter_identities
    (op : Bool) (f : IterYield → Seer) (items : List IterYield)
    (P : BlockParams) (fit : List LMMRec → List (List Nat) → List FittedVar)
    (lrt : ℚ) (bs fuel : Nat) (vf : VarFile) (regs : List (String × String))
    (hfit : ∀ vs m, (fit vs m).length = vs.length) :
    (run_sequential f items op).tested =
        (run_sequential f items op).filteredR + (run_sequential f items op).printed ∧
    (run_sequential f items op).printed ≤ (run_sequential f items op).tested ∧
    (lmm_driver P fit op lrt bs fuel vf regs lmmInit).tested =
        (lmm_driver P fit op lrt bs fuel vf regs lmmInit).filteredR +
          (lmm_driver P fit op lrt bs fuel vf regs lmmInit).printed ∧
    (lmm_driver P fit op lrt bs fuel vf regs lmmInit).printed ≤
        (lmm_driver P fit op lrt bs fuel vf regs lmmInit).tested := by
  have h1 : (run_sequential f items op).tested =
      (run_sequential f items op).filteredR + (run_sequential f items op).printed := by
    unfold run_sequential
    rw [← List.foldl_map]
    exact agg_fold_partition op (items.map f) aggInit rfl
  have h2 := lmm_driver_partition P fit op lrt bs hfit fuel vf regs lmmInit rfl
  exact ⟨h1, by omega, h2, by omega⟩

/-- Witness for C1 (amended) at a concrete length-preserving block fit
and concrete runs. -/
theorem C1_amended_counter_identities_witness :
    (∀ (vs : List LMMRec) (m : List (List Nat)),
      ((fun (vs : List LMMRec) (_ : List (List Nat)) =>
          vs.map (fun v => (⟨v.kmer, v.pattern, 0, 0⟩ : FittedVar))) vs m).length
        = vs.length) ∧
    (run_sequential
        (fun _ => (⟨"", [], 0, 0, 0, 0, 0, 0, [], none, [], [], "", false, false⟩ : Seer))
        [] false).printed ≤
      (run_sequential
        (fun _ => (⟨"", [], 0, 0, 0, 0, 0, 0, [], none, [], [], "", false, false⟩ : Seer))
        [] false).tested ∧
    (lmm_driver ⟨["s1"], ["s1"], [], 0, 1, 1, false, fun _ => (0, false)⟩
        (fun vs _ => vs.map (fun v => (⟨v.kmer, v.pattern, 0, 0⟩ : FittedVar)))
        false 1 10 1 (.kmers []) [] lmmInit).printed ≤
      (lmm_driver ⟨["s1"], ["s1"], [], 0, 1, 1, false, fun _ => (0, false)⟩
        (fun vs _ => vs.map (fun v => (⟨v.kmer, v.pattern, 0, 0⟩ : FittedVar)))
        false 1 10 1 (.kmers []) [] lmmInit).tested :=
  ⟨fun vs m => by simp,
   (C1_amended_counter_identities false
      (fun _ => (⟨"", [], 0, 0, 0, 0, 0, 0, [], none, [], [], "", false, false⟩ : Seer)) []
      ⟨["s1"], ["s1"], [], 0, 1, 1, false, fun _ => (0, false)⟩
      (fun vs _ => vs.map (fun v => (⟨v.kmer, v.pattern, 0, 0⟩ : FittedVar)))
      1 10 1 (.kmers []) [] (fun vs m => by simp)).2.1,
   (C1_amended_counter_identities false
      (fun _ => (⟨"", [], 0, 0, 0, 0, 0, 0, [], none, [], [], "", false, false⟩ : Seer)) []
      ⟨["s1"], ["s1"], [], 0, 1, 1, false, fun _ => (0, false)⟩
      (fun vs _ => vs.map (fun v => (⟨v.kmer, v.pattern, 0, 0⟩ : FittedVar)))
      1 10 1 (.kmers []) [] (fun vs m => by simp)).2.2.2⟩

/-- C5: with a chunk size of worker count times the fixed per-core
multiplier, the pooled dispatch of the fixed-effects path produces
exactly the same aggregation state — the same printed records in the
same order, the same pattern sink and the same final counters — as the
sequential run, for every deterministic per-variant worker; moreover the
chunk slicing is exhaustive and duplication-free: the concatenation of
the chunks is the original argument stream. -/
theorem C5_parallel_equals_sequential (cpu : Nat) (f : IterYield → Seer)
    (items : List IterYield) (op : Bool) (hcpu : 1 < cpu) :
    run_parallel cpu f items op = run_sequential f items op ∧
    (chunksOf (cpu * kmer_per_core) items).flatten = items := by
  have hk : 0 < kmer_per_core := by norm_num [kmer_per_core]
  have hn : 0 < cpu * kmer_per_core :=
    Nat.mul_pos (Nat.lt_of_lt_of_le Nat.zero_lt_one (le_of_lt hcpu)) hk
  have hjoin := chunksOf_join (cpu * kmer_per_core) hn items
  refine ⟨?_, hjoin⟩
  unfold run_parallel run_sequential
  rw [foldl_map_join, hjoin, List.foldl_map]

/-- Witness for C5 with two workers on a singleton stream. -/
theorem C5_parallel_equals_sequential_witness :
    1 < 2 ∧
    run_parallel 2
        (fun _ => (⟨"", [], 0, 0, 0, 0, 0, 0, [], none, [], [], "", false, false⟩ : Seer))
        [IterYield.skip] false =
      run_sequential
        (fun _ => (⟨"", [], 0, 0, 0, 0, 0, 0, [], none, [], [], "", false, false⟩ : Seer))
        [IterYield.skip] false :=
  ⟨by norm_num,
   (C5_parallel_equals_sequential 2
      (fun _ => (⟨"", [], 0, 0, 0, 0, 0, 0, [], none, [], [], "", false, false⟩ : Seer))
      [IterYield.skip] false (by norm_num)).1⟩

/-- C10: with a positive minimum AF (and the sample universe inside the
phenotype index, as `main` arranges), the compacted block matrix holds
exactly one column per returned record, in the same order: the record
list and the matrix are the two projections of the same admitted pair
sequence, so column `i` is the indicator vector of record `i`. -/
theorem C10_block_matrix_alignment (P : BlockParams) (bs : Nat) (f : VarFile)
    (regs : List (String × String))
    (hsub : ∀ s ∈ P.all_strains, s ∈ P.pIndex) (hmin : 0 < P.min_af) :
    (load_var_block P bs f regs).variants = (blockPairs P bs f regs).map Prod.fst ∧
    (load_var_block P bs f regs).variant_mat = (blockPairs P bs f regs).map Prod.snd ∧
    (load_var_block P bs f regs).variant_mat.length =
      (load_var_block P bs f regs).variants.length := by
  obtain ⟨h1, h2, _⟩ := load_var_block_spec P bs f regs hsub hmin
  refine ⟨h1, h2, ?_⟩
  rw [h1, h2]
  simp

/-- Witness for C10 at a concrete admitted variant. -/
theorem C10_block_matrix_alignment_witness :
    (0 : ℚ) < mkRat 1 100 ∧
    (load_var_block ⟨["s1"], ["s1"], [], mkRat 1 100, 1, 1, true, fun _ => (0, false)⟩ 5
        (.kmers [⟨"v", ["s1:1"]⟩]) []).variant_mat =
      (blockPairs ⟨["s1"], ["s1"], [], mkRat 1 100, 1, 1, true, fun _ => (0, false)⟩ 5
        (.kmers [⟨"v", ["s1:1"]⟩]) []).map Prod.snd :=
  ⟨by decide,
   (C10_block_matrix_alignment
      ⟨["s1"], ["s1"], [], mkRat 1 100, 1, 1, true, fun _ => (0, false)⟩ 5
      (.kmers [⟨"v", ["s1:1"]⟩]) [] (fun s hs => hs) (by decide)).2.1⟩

end Pyseer
